import Mathlib

/-!
Shallow embedding of the term/definition extraction pipeline of the
DocAnalyzerAI repository (src/src/main/*.py): the segmenter variants
(SectionPDFReader, ThomasWillingGlossaryReader, HyphenPDFReader,
ColumnGlossaryReader, PDFReader), the WAGovGlossaryReader pair-processing
loop, the deduplication steps and the persistence sinks.  Text is modelled
as Lean String (internally List Char); Python string primitives
(strip, split, lower, regular-expression substitutions with the concrete
patterns appearing in the source) are implemented as total executable
functions whose behaviour on the inputs reachable in the source matches
CPython semantics for ASCII text.
-/

namespace DocAnalyzer

/-- Python whitespace class for str.strip / str.split / regex class \s
(ASCII part): space, tab, newline, carriage return, vertical tab, form feed. -/
def pySpace (c : Char) : Bool :=
  c = ' ' || c = '\t' || c = '\n' || c = '\r' || c = '\x0b' || c = '\x0c'

/-- Characters of the Python word class \w (ASCII): letters, digits, underscore. -/
def pyWordChar (c : Char) : Bool :=
  c.isAlpha || c.isDigit || c = '_'

/-- str.strip on a character list: drop leading and trailing whitespace. -/
def stripChars (l : List Char) : List Char :=
  ((l.dropWhile pySpace).reverse.dropWhile pySpace).reverse

/-- str.strip on strings. -/
def pyStrip (s : String) : String :=
  String.mk (stripChars s.data)

/-- Worker for whitespace collapapsing: the flag records whether the
previous character already belonged to a whitespace run. -/
def collapseAux : Bool → List Char → List Char
  | _, [] => []
  | prev, c :: cs =>
    if pySpace c then
      if prev then collapseAux true cs else ' ' :: collapseAux true cs
    else c :: collapseAux false cs

/-- re.sub of the pattern matching a whitespace run by a single space,
exactly as every reader variant normalizes terms and definitions. -/
def collapseWs (s : String) : String :=
  String.mk (collapseAux false s.data)

/-- str.split with a one-character separator (keeps empty fields),
as in text.split of a newline. -/
def splitOnChar (sep : Char) : List Char → List (List Char)
  | [] => [[]]
  | c :: cs =>
    match splitOnChar sep cs with
    | [] => [[]]
    | h :: t => if c = sep then [] :: h :: t else (c :: h) :: t

/-- Split a character list at the first occurrence of the given character:
str.split(sep, 1) when the separator occurs.  Returns none when absent. -/
def splitFirstChar (sep : Char) : List Char → Option (List Char × List Char)
  | [] => none
  | c :: cs =>
    if c = sep then some ([], cs)
    else
      match splitFirstChar sep cs with
      | some (a, b) => some (c :: a, b)
      | none => none

/-- Split a character list at the first occurrence of a (nonempty)
substring: str.split(sep, 1) for multi-character separators. -/
def splitFirstSub (pat : List Char) : List Char → Option (List Char × List Char)
  | [] => none
  | c :: cs =>
    if pat.isPrefixOf (c :: cs) then some ([], (c :: cs).drop pat.length)
    else
      match splitFirstSub pat cs with
      | some (a, b) => some (c :: a, b)
      | none => none

/-- Substring containment, the Python in operator on strings. -/
def containsSub (pat l : List Char) : Bool :=
  match l with
  | [] => pat.isPrefixOf ([] : List Char)
  | _ :: cs => pat.isPrefixOf l || containsSub pat cs

/-- Fuelled worker for repeated splitting on a substring. -/
def splitAllSubAux (pat : List Char) : Nat → List Char → List (List Char)
  | 0, l => [l]
  | n + 1, l =>
    match splitFirstSub pat l with
    | none => [l]
    | some (a, b) => a :: splitAllSubAux pat n b

/-- str.split with a multi-character separator and no count limit
(text.split of a period-space, in WAGovGlossaryReader). -/
def splitAllSub (pat : List Char) (l : List Char) : List (List Char) :=
  splitAllSubAux pat (l.length + 1) l

/-- Worker for whitespace tokenisation, accumulating the current word
in reverse. -/
def wordsAux : List Char → List Char → List (List Char)
  | cur, [] => if cur.isEmpty then [] else [cur.reverse]
  | cur, c :: cs =>
    if pySpace c then
      if cur.isEmpty then wordsAux [] cs else cur.reverse :: wordsAux [] cs
    else wordsAux (c :: cur) cs

/-- str.split() with no argument: whitespace-run tokenisation discarding
empty fields. -/
def pyWords (l : List Char) : List (List Char) :=
  wordsAux [] l

/-- A space-separated join, the Python idiom joining definition parts. -/
def joinSp : List (List Char) → List Char
  | [] => []
  | [x] => x
  | x :: y :: rest => x ++ ' ' :: joinSp (y :: rest)

/-- str.lower on a character list (ASCII). -/
def lowerChars (l : List Char) : List Char :=
  l.map Char.toLower

/-- str.lower on strings (ASCII). -/
def lowerStr (s : String) : String :=
  String.mk (lowerChars s.data)

/-- Python str.islower on a string: at least one cased character and no
uppercase cased character (ASCII). -/
def pyIsLowerStr (l : List Char) : Bool :=
  l.any Char.isAlpha && l.all (fun c => !c.isAlpha || c.isLower)

/-- A term/definition pair, the atomic output unit of every reader. -/
abbrev TDPair := String × String

end DocAnalyzer

namespace SectionPDFReader

open DocAnalyzer

/-- The line scan of SectionPDFReader.extract_terms_and_definitions:
strip each line, skip blanks and single uppercase section letters; a line
holding a colon flushes the pending pair and opens a new one at the first
colon; other lines extend the pending definition.  State: the pending
term with its definition lines (most recent last). -/
def scanLines : List (List Char) → Option (List Char × List (List Char)) → List (List Char × List Char)
  | [], cur =>
    match cur with
    | some (t, defs) => if !t.isEmpty && !defs.isEmpty then [(t, joinSp defs)] else []
    | none => []
  | rawLine :: rest, cur =>
    let line := stripChars rawLine
    if line.isEmpty then scanLines rest cur
    else if line.length = 1 && line.all Char.isUpper then scanLines rest cur
    else
      match splitFirstChar ':' line with
      | some (t, d) =>
        let flushed :=
          match cur with
          | some (ct, defs) => if !ct.isEmpty && !defs.isEmpty then [(ct, joinSp defs)] else []
          | none => []
        flushed ++ scanLines rest (some (stripChars t, [stripChars d]))
      | none =>
        match cur with
        | some (ct, defs) => scanLines rest (some (ct, defs ++ [line]))
        | none => scanLines rest cur

/-- The validation pass of SectionPDFReader: drop single-letter terms,
collapse whitespace runs, keep a pair only when the cleaned term is longer
than 1 and the cleaned definition longer than 5. -/
def cleanPair (td : List Char × List Char) : Option TDPair :=
  if (stripChars td.1).length ≤ 1 then none
  else
    let t := pyStrip (collapseWs (String.mk td.1))
    let d := pyStrip (collapseWs (String.mk td.2))
    if decide (1 < t.length) && decide (5 < d.length) then some (t, d) else none

/-- SectionPDFReader.extract_terms_and_definitions. -/
def extract_terms_and_definitions (text : String) : List TDPair :=
  if text = "" then []
  else (scanLines (splitOnChar '\n' text.data) none).filterMap cleanPair

end SectionPDFReader

namespace ThomasWillingGlossaryReader

open DocAnalyzer

/-- One alternative of the annotation pattern: optional whitespace, the
literal, optional whitespace; returns the number of characters matched at
the head of the list when the literal is found after the leading run. -/
def annotAltLen (lit : List Char) (l : List Char) : Option Nat :=
  let ws := l.takeWhile pySpace
  let rest := l.drop ws.length
  if lit.isPrefixOf rest then
    let after := rest.drop lit.length
    let ws2 := after.takeWhile pySpace
    some (ws.length + lit.length + ws2.length)
  else none

/-- Leftmost-alternative match at one position for the pattern removing
the (n.) / (v.) / (adj.) annotations with surrounding whitespace. -/
def annotMatchLen (l : List Char) : Option Nat :=
  match annotAltLen "(n.)".data l with
  | some n => some n
  | none =>
    match annotAltLen "(v.)".data l with
    | some n => some n
    | none => annotAltLen "(adj.)".data l

/-- Fuelled worker for the annotation removal; every step consumes at
least one character, so fuel equal to the length is always enough. -/
def removeAnnotationsAux : Nat → List Char → List Char
  | 0, l => l
  | _ + 1, [] => []
  | fuel + 1, c :: cs =>
    match annotMatchLen (c :: cs) with
    | some (n + 1) => removeAnnotationsAux fuel ((c :: cs).drop (n + 1))
    | _ => c :: removeAnnotationsAux fuel cs

/-- re.sub of the annotation pattern by the empty string: scan left to
right, delete each leftmost match, resume after it. -/
def removeAnnotations (l : List Char) : List Char :=
  removeAnnotationsAux l.length l

/-- ThomasWillingGlossaryReader.extract_terms_and_definitions line scan:
identical to the Section reader scan except that there is no
section-letter skip and the term has the part-of-speech annotations
removed before it is stripped. -/
def scanLines : List (List Char) → Option (List Char × List (List Char)) → List (List Char × List Char)
  | [], cur =>
    match cur with
    | some (t, defs) => if !t.isEmpty && !defs.isEmpty then [(t, joinSp defs)] else []
    | none => []
  | rawLine :: rest, cur =>
    let line := stripChars rawLine
    if line.isEmpty then scanLines rest cur
    else
      match splitFirstChar ':' line with
      | some (t, d) =>
        let flushed :=
          match cur with
          | some (ct, defs) => if !ct.isEmpty && !defs.isEmpty then [(ct, joinSp defs)] else []
          | none => []
        flushed ++ scanLines rest (some (stripChars (removeAnnotations t), [stripChars d]))
      | none =>
        match cur with
        | some (ct, defs) => scanLines rest (some (ct, defs ++ [line]))
        | none => scanLines rest cur

/-- The validation pass: collapse whitespace and keep pairs with term
longer than 1 and definition longer than 5 (no single-letter pre-skip
here, unlike the Section reader). -/
def cleanPair (td : List Char × List Char) : Option TDPair :=
  let t := pyStrip (collapseWs (String.mk td.1))
  let d := pyStrip (collapseWs (String.mk td.2))
  if decide (1 < t.length) && decide (5 < d.length) then some (t, d) else none

/-- ThomasWillingGlossaryReader.extract_terms_and_definitions. -/
def extract_terms_and_definitions (text : String) : List TDPair :=
  if text = "" then []
  else (scanLines (splitOnChar '\n' text.data) none).filterMap cleanPair

end ThomasWillingGlossaryReader

namespace DocAnalyzer

/-- Worker for the duplicate-removal loops: a seen list standing for the
Python set, first occurrence kept. -/
def dedupKeyedAux (key : TDPair → String) (seen : List String) : List TDPair → List TDPair
  | [] => []
  | td :: rest =>
    if seen.contains (key td) then dedupKeyedAux key seen rest
    else td :: dedupKeyedAux key (key td :: seen) rest

/-- The duplicate-removal loop shared by the readers, parameterised by the
key under which two terms count as equal. -/
def dedupKeyed (key : TDPair → String) (l : List TDPair) : List TDPair :=
  dedupKeyedAux key [] l

/-- Modelled from the spec text of the Deduplicator: the same sequence
with every entry after the first occurrence of a given key removed, first
occurrence wins.  Used only to compare the implementation against the
specified behaviour. -/
def keepFirstOccurrences (key : TDPair → String) : List TDPair → List TDPair
  | [] => []
  | td :: rest =>
    td :: keepFirstOccurrences key (rest.filter (fun q => key q ≠ key td))
  termination_by l => l.length
  decreasing_by
    simp only [List.length_cons]
    exact Nat.lt_succ_of_le (List.length_filter_le _ rest)

/-- The case-insensitive duplicate removal of SectionPDFReader,
ThomasWillingGlossaryReader, WAGovGlossaryReader and
ColumnGlossaryReader: membership is tested on the lower-cased term. -/
def dedupCaseInsensitive (l : List TDPair) : List TDPair :=
  dedupKeyed (fun td => lowerStr td.1) l

/-- The duplicate removal of HyphenPDFReader.save_text_content:
membership is tested on the term as written, with no lower-casing. -/
def dedupCaseSensitive (l : List TDPair) : List TDPair :=
  dedupKeyed (fun td => td.1) l

/-- One output record of the colon-format persistence sinks. -/
def formatRecord (td : TDPair) : String :=
  td.1 ++ ": " ++ td.2 ++ "\n\n"

/-- The body written by the colon-format persistence sinks for a pair
sequence. -/
def writeRecords (l : List TDPair) : String :=
  String.join (l.map formatRecord)

/-- The warning line written when nothing was extracted. -/
def warningLine : String :=
  "Warning: No terms and definitions were extracted from the PDF.\n"

/-- The consumer in create_finance_training_data.load_glossary_terms:
split a record at its first colon and strip both sides. -/
def parseRecordLine (s : String) : Option TDPair :=
  match splitFirstChar ':' s.data with
  | some (a, b) => some (String.mk (stripChars a), String.mk (stripChars b))
  | none => none

end DocAnalyzer

namespace HyphenPDFReader

open DocAnalyzer

/-- The separator class of the hyphen reader patterns: colon, en dash,
hyphen. -/
def isSepChar (c : Char) : Bool :=
  c = ':' || c = '–' || c = '-'

/-- The term pattern of HyphenPDFReader: a lazy nonempty run free of
separators, a separator, optional whitespace, then a nonempty remainder
(the single backtracked whitespace character when nothing else is left). -/
def termMatch (line : List Char) : Option (List Char × List Char) :=
  match line.findIdx? isSepChar with
  | some f =>
    if 1 ≤ f then
      let g1 := line.take f
      let rest := line.drop (f + 1)
      let rest2 := rest.dropWhile pySpace
      if !rest2.isEmpty then some (g1, rest2)
      else
        match rest.getLast? with
        | some c => some (g1, [c])
        | none => none
    else none
  | none => none

/-- The guard pattern of the continuation branch: an uppercase letter, a
nonempty separator-free run, then a separator. -/
def looksLikeNewTerm (line : List Char) : Bool :=
  match line with
  | [] => false
  | c :: _ =>
    c.isUpper &&
      (match line.findIdx? isSepChar with
       | some f => decide (2 ≤ f)
       | none => false)

/-- Header fragments skipped inside the line loop. -/
def isHeaderLine (line : List Char) : Bool :=
  containsSub "Penn State".data line || containsSub "Financial and Life Skills Center".data line

/-- The line scan of HyphenPDFReader.extract_terms_and_definitions.  The
incoming lines are already stripped and nonempty. -/
def scanLines : List (List Char) → Option (List Char × List (List Char)) → List (List Char × List Char)
  | [], cur =>
    match cur with
    | some (t, defs) =>
      if !t.isEmpty && !defs.isEmpty then [(stripChars t, stripChars (joinSp defs))] else []
    | none => []
  | line :: rest, cur =>
    if isHeaderLine line then scanLines rest cur
    else
      match termMatch line with
      | some (g1, g2) =>
        let flushed :=
          match cur with
          | some (t, defs) =>
            if !t.isEmpty && !defs.isEmpty then [(stripChars t, stripChars (joinSp defs))] else []
          | none => []
        flushed ++ scanLines rest (some (g1, [g2]))
      | none =>
        match cur with
        | some (t, defs) =>
          if !looksLikeNewTerm line then scanLines rest (some (t, defs ++ [line]))
          else scanLines rest cur
        | none => scanLines rest cur

/-- The validation pass of HyphenPDFReader: whitespace collapse, term
longer than 2, definition longer than 5, and the definition must not
repeat the term as a case-insensitive leading fragment. -/
def cleanPair (td : List Char × List Char) : Option TDPair :=
  let t := pyStrip (collapseWs (String.mk td.1))
  let d := pyStrip (collapseWs (String.mk td.2))
  if decide (2 < t.length) && decide (5 < d.length) &&
      !((lowerChars t.data).isPrefixOf (lowerChars d.data)) then
    some (t, d)
  else none

/-- HyphenPDFReader.extract_terms_and_definitions. -/
def extract_terms_and_definitions (text : String) : List TDPair :=
  if text = "" then []
  else
    let lines := ((splitOnChar '\n' text.data).map stripChars).filter (fun l => !l.isEmpty)
    (scanLines lines none).filterMap cleanPair

/-- The file body produced by HyphenPDFReader.save_text_content from the
extracted pairs: case-sensitive duplicate removal, then either the
warning line or the colon-format records. -/
def save_text_content (pairs : List TDPair) : String :=
  let u := dedupCaseSensitive pairs
  if u.isEmpty then warningLine else writeRecords u

end HyphenPDFReader

namespace SectionPDFReader

open DocAnalyzer

/-- The file body produced by SectionPDFReader.save_text_content from the
extracted pairs: case-insensitive duplicate removal, then the
colon-format records, with no special branch when nothing was
extracted. -/
def save_text_content (pairs : List TDPair) : String :=
  writeRecords (dedupCaseInsensitive pairs)

end SectionPDFReader

namespace LinePDFReader

open DocAnalyzer

/-- The rewrite performed by LinePDFReader.process_file once the pairs are
extracted: none models the early return that leaves the file untouched
when nothing was extracted. -/
def process_file_rewrite (pairs : List TDPair) : Option String :=
  if pairs.isEmpty then none
  else some (String.join (pairs.map (fun td =>
    "Term: " ++ td.1 ++ "\nDefinition: " ++ td.2 ++ "\n\n")))

end LinePDFReader

namespace PDFReader

open DocAnalyzer

/-- Case-insensitive literal matching at the head of a list (the effect
of re.IGNORECASE on a literal fragment, ASCII). -/
def ciIsPrefixOf : List Char → List Char → Bool
  | [], _ => true
  | _ :: _, [] => false
  | p :: ps, c :: cs => (p.toLower = c.toLower) && ciIsPrefixOf ps cs

/-- The lookahead of the header pattern: a nonempty word-character run, a
nonempty whitespace run, then the fragment This is (case-insensitive). -/
def headerLookahead (l : List Char) : Bool :=
  let a := (l.takeWhile pyWordChar).length
  if a = 0 then false
  else
    let r1 := l.drop a
    let b := (r1.takeWhile pySpace).length
    if b = 0 then false else ciIsPrefixOf "this is".data (r1.drop b)

/-- Lazy dot-star scan: the least number of non-newline characters to
skip before the given lookahead holds; none when a newline or the end is
reached first. -/
def lazyScan (look : List Char → Bool) : List Char → Option Nat
  | [] => if look [] then some 0 else none
  | c :: cs =>
    if look (c :: cs) then some 0
    else if c = '\n' then none
    else (lazyScan look cs).map (· + 1)

/-- Fuelled worker of the header substitution: delete every match of the
case-insensitive literal followed by a lazy dot-star bounded by the given
lookahead. -/
def literalLazySubAux (lit : List Char) (look : List Char → Bool) : Nat → List Char → List Char
  | 0, l => l
  | _ + 1, [] => []
  | fuel + 1, c :: cs =>
    if ciIsPrefixOf lit (c :: cs) then
      let rest := (c :: cs).drop lit.length
      match lazyScan look rest with
      | some k => literalLazySubAux lit look fuel (rest.drop k)
      | none => c :: literalLazySubAux lit look fuel cs
    else c :: literalLazySubAux lit look fuel cs

/-- re.sub of a case-insensitive literal followed by a lazy dot-star and
a lookahead, replaced by the empty string. -/
def literalLazySub (lit : List Char) (look : List Char → Bool) (l : List Char) : List Char :=
  literalLazySubAux lit look l.length l

/-- The header removal of PDFReader.extract_terms_and_definitions. -/
def removeHeaderRun (l : List Char) : List Char :=
  literalLazySub "Plain English Campaign The A to Z of financial terms".data headerLookahead l

/-- Whether a position ends a line: the multiline dollar anchor. -/
def dollarAt (l : List Char) (p : Nat) : Bool :=
  p = l.length || (l.drop p).head? = some '\n'

/-- Largest end position of the greedy trailing whitespace that satisfies
the dollar anchor, scanning the run from its full extent downwards. -/
def findDollarDown (l : List Char) (e : Nat) : Nat → Option Nat
  | 0 => if dollarAt l e then some e else none
  | w + 1 =>
    if dollarAt l (e + w + 1) then some (e + w + 1) else findDollarDown l e w

/-- The page-number pattern at the head of the list: optional
whitespace, a nonempty digit run, optional whitespace, then a line end;
returns the match length. -/
def pageNumMatchLen (l : List Char) : Option Nat :=
  let s := (l.takeWhile pySpace).length
  let d := ((l.drop s).takeWhile Char.isDigit).length
  if d = 0 then none
  else
    let e := s + d
    let w := ((l.drop e).takeWhile pySpace).length
    findDollarDown l e w

/-- Fuelled worker of the page-number substitution. -/
def pageNumSubAux : Nat → List Char → List Char
  | 0, l => l
  | _ + 1, [] => []
  | fuel + 1, c :: cs =>
    match pageNumMatchLen (c :: cs) with
    | some p => pageNumSubAux fuel ((c :: cs).drop p)
    | none => c :: pageNumSubAux fuel cs

/-- The multiline page-number removal of
PDFReader.extract_terms_and_definitions. -/
def removePageNumbers (l : List Char) : List Char :=
  pageNumSubAux l.length l

/-- The lookahead of the residual-header pattern inside definitions: the
next character is a word character. -/
def wordLookahead (l : List Char) : Bool :=
  match l with
  | c :: _ => pyWordChar c
  | [] => false

/-- The residual header removal applied to each definition during the
cleanup pass. -/
def removeCampaignRun (l : List Char) : List Char :=
  literalLazySub "Plain English Campaign".data wordLookahead l

/-- The term-line pattern of PDFReader: an uppercase letter followed by
at least one character drawn from letters, whitespace, hyphen, ampersand
and parentheses, spanning the whole line. -/
def termLinePattern (line : List Char) : Bool :=
  match line with
  | [] => false
  | c :: rest =>
    c.isUpper && !rest.isEmpty &&
      rest.all (fun ch => ch.isAlpha || pySpace ch || ch = '-' || ch = '&' || ch = '(' || ch = ')')

/-- The line scan of PDFReader.extract_terms_and_definitions: a short
capitalised line opens a new term; a line starting with This restarts
the pending definition; other lines extend a nonempty pending
definition. -/
def scanLines : List (List Char) → Option (List Char × List (List Char)) → List (List Char × List Char)
  | [], cur =>
    match cur with
    | some (t, defs) =>
      if !t.isEmpty && !defs.isEmpty then [(t, stripChars (joinSp defs))] else []
    | none => []
  | rawLine :: rest, cur =>
    let line := stripChars rawLine
    if line.isEmpty then scanLines rest cur
    else if termLinePattern line && decide ((pyWords line).length ≤ 4) then
      let flushed :=
        match cur with
        | some (t, defs) =>
          if !t.isEmpty && !defs.isEmpty then [(t, stripChars (joinSp defs))] else []
        | none => []
      flushed ++ scanLines rest (some (line, []))
    else
      match cur with
      | some (t, defs) =>
        if "This".data.isPrefixOf line then scanLines rest (some (t, [line]))
        else if !defs.isEmpty then scanLines rest (some (t, defs ++ [line]))
        else scanLines rest cur
      | none => scanLines rest cur

/-- The cleanup pass of PDFReader: residual header removal and
whitespace collapse on the definition, then both components are kept
whenever they are nonempty; no minimum lengths are demanded. -/
def cleanPair (td : List Char × List Char) : Option TDPair :=
  let d1 := removeCampaignRun td.2
  let d2 := collapseAux false d1
  if !td.1.isEmpty && !d2.isEmpty then
    some (String.mk (stripChars td.1), String.mk (stripChars d2))
  else none

/-- PDFReader.extract_terms_and_definitions. -/
def extract_terms_and_definitions (text : String) : List TDPair :=
  if text = "" then []
  else
    let t1 := removeHeaderRun text.data
    let t2 := removePageNumbers t1
    (scanLines (splitOnChar '\n' t2) none).filterMap cleanPair

/-- The file body produced by PDFReader.save_text_content from the
extracted pairs: the warning line when nothing was extracted, the
colon-format records otherwise (no duplicate removal in this
variant). -/
def save_text_content (pairs : List TDPair) : String :=
  if pairs.isEmpty then warningLine else writeRecords pairs

end PDFReader

namespace ColumnGlossaryReader

open DocAnalyzer

/-- Cons a character onto the first block of a block list. -/
def consHead (c : Char) : List (List Char) → List (List Char)
  | [] => [[c]]
  | h :: t => (c :: h) :: t

/-- Fuelled worker of the block splitter: a whitespace run whose
predecessor is a period and whose successor is an uppercase letter
separates two blocks; the run is consumed.  Every step consumes at least
one character, so fuel equal to the length is enough. -/
def blockSplitAux : Nat → Char → List Char → List (List Char)
  | 0, _, l => [l]
  | _ + 1, _, [] => [[]]
  | fuel + 1, prev, c :: cs =>
    if pySpace c && prev = '.' then
      let run := (c :: cs).takeWhile pySpace
      let rest := (c :: cs).drop run.length
      match rest with
      | d :: _ =>
        if d.isUpper then
          match blockSplitAux fuel ' ' rest with
          | [] => [[]]
          | h :: t => [] :: h :: t
        else consHead c (blockSplitAux fuel c cs)
      | [] => consHead c (blockSplitAux fuel c cs)
    else consHead c (blockSplitAux fuel c cs)

/-- re.split of the sentence-boundary pattern of ColumnGlossaryReader:
split at whitespace runs preceded by a period and followed by an
uppercase letter. -/
def blockSplit (l : List Char) : List (List Char) :=
  blockSplitAux l.length ' ' l

/-- Python str.isupper: at least one cased character and no lowercase
cased character (ASCII). -/
def pyIsUpperStr (l : List Char) : Bool :=
  l.any Char.isAlpha && l.all (fun c => !c.isAlpha || c.isUpper)

/-- ColumnGlossaryReader.is_capitalized_word, with the conditional
binding of the source: a word of length at most one always counts as
capitalised; otherwise the first character must be uppercase and the
remainder must satisfy str.islower. -/
def is_capitalized_word (w : List Char) : Bool :=
  match w with
  | [] => true
  | [_] => true
  | c :: rest => c.isUpper && pyIsLowerStr rest

/-- The CONTINUATION_WORDS set of ColumnGlossaryReader, spelled exactly
as in the source (capitalised entries, some of them multi-word). -/
def CONTINUATION_WORDS : List String :=
  ["It", "This", "That", "These", "Those", "They", "He", "She", "You",
   "Your", "Their", "Its", "His", "Her", "We", "Our", "Such", "Some",
   "Therefore", "Thus", "Consequently", "Hence", "So", "As a result",
   "Accordingly", "For this reason", "Because of this"]

/-- The word at an index of a token list, used only under length
guards. -/
def getWord (ws : List (List Char)) (n : Nat) : List Char :=
  (ws.drop n).headD []

/-- The fallback ladder of the term rules: start from the first word and
keep appending while the word after the candidate is capitalised, for at
most two rounds. -/
def elseLadder : List (List Char) → List (List Char)
  | f0 :: f1 :: f2 :: f3 :: _ =>
    if is_capitalized_word f2 then
      if is_capitalized_word f3 then [f0, f1, f2] else [f0, f1]
    else [f0]
  | f0 :: f1 :: [f2] =>
    if is_capitalized_word f2 then [f0, f1] else [f0]
  | f0 :: _ => [f0]
  | [] => []

/-- The rule ladder choosing the term words from the first four words of
a block sentence. -/
def termRule (ws : List (List Char)) : List (List Char) :=
  let ff := ws.take 4
  if decide (3 ≤ ff.length) && is_capitalized_word (getWord ff 0) &&
      is_capitalized_word (getWord ff 1) && !is_capitalized_word (getWord ff 2) then
    [getWord ff 0]
  else if decide (4 ≤ ff.length) && is_capitalized_word (getWord ff 0) &&
      is_capitalized_word (getWord ff 1) && is_capitalized_word (getWord ff 2) &&
      !is_capitalized_word (getWord ff 3) then
    [getWord ff 0, getWord ff 1]
  else if decide (ff.length = 4) && ff.all is_capitalized_word &&
      decide (4 < ws.length) && !is_capitalized_word (getWord ws 4) then
    [getWord ff 0, getWord ff 1, getWord ff 2]
  else
    elseLadder ff

/-- A stripped character list ending in a period, the emission guard of
ColumnGlossaryReader. -/
def endsWithDot (l : List Char) : Bool :=
  (stripChars l).getLast? = some '.'

/-- The guarded flush of the pending pair: emitted only when the joined
definition, stripped, ends with a period. -/
def flushPair (cur : Option (List Char × List (List Char))) : List TDPair :=
  match cur with
  | some (t, parts) =>
    if !t.isEmpty && !parts.isEmpty then
      let d := joinSp parts
      if endsWithDot d then [(String.mk t, String.mk d)] else []
    else []
  | none => []

/-- The section-marker adjustment: a lone uppercase first line is removed
when the next line starts with the same letter. -/
def dropMarker (lines : List (List Char)) : List (List Char) :=
  match lines with
  | l0 :: l1 :: rest =>
    if l0.length = 1 && pyIsUpperStr l0 &&
        (match l1 with
         | d :: _ => [Char.toUpper d] = l0
         | [] => false) then
      l1 :: rest
    else lines
  | _ => lines

/-- The block loop of ColumnGlossaryReader.extract_term_and_definition. -/
def scanBlocks : List (List Char) → Option (List Char × List (List Char)) → List TDPair
  | [], cur => flushPair cur
  | b :: bs, cur =>
    if (stripChars b).isEmpty then scanBlocks bs cur
    else
      let lines0 := ((splitOnChar '\n' b).map stripChars).filter (fun l => !l.isEmpty)
      match lines0 with
      | [] => scanBlocks bs cur
      | _ :: _ =>
        let lines := dropMarker lines0
        let sentence := joinSp lines
        let ws := pyWords sentence
        if decide (ws.length < 2) then scanBlocks bs cur
        else
          let contHit := CONTINUATION_WORDS.contains (String.mk (getWord ws 0))
          match cur with
          | some (t, parts) =>
            if contHit && !t.isEmpty then
              scanBlocks bs (some (t, parts ++ [sentence]))
            else
              let tw := termRule ws
              flushPair (some (t, parts)) ++
                (if !tw.isEmpty then
                  scanBlocks bs (some (joinSp tw, [joinSp (ws.drop tw.length)]))
                else scanBlocks bs (some (t, parts)))
          | none =>
            let tw := termRule ws
            if !tw.isEmpty then
              scanBlocks bs (some (joinSp tw, [joinSp (ws.drop tw.length)]))
            else scanBlocks bs none

/-- ColumnGlossaryReader.extract_term_and_definition. -/
def extract_term_and_definition (text : String) : List TDPair :=
  scanBlocks (blockSplit text.data) none

/-- The file body produced by ColumnGlossaryReader.save_to_file: the
colon-format records, with no special branch when nothing was
extracted. -/
def save_to_file (pairs : List TDPair) : String :=
  writeRecords pairs

end ColumnGlossaryReader

namespace WAGovGlossaryReader

open DocAnalyzer

/-- The continuation-word set of WAGovGlossaryReader, lower-case as in
the source. -/
def continuationWords : List String :=
  ["a", "an", "the", "you", "it", "they", "this", "that", "these", "those",
   "usually", "in", "therefore", "when", "can", "since", "also", "if", "however",
   "because", "while", "although", "unless", "moreover", "furthermore"]

/-- WAGovGlossaryReader.should_merge_with_previous: false on the empty
term; otherwise the first word of the lower-cased term lies in the
continuation set, or the first character is lowercase.  (On a nonempty
all-whitespace term the source would raise; such terms never reach this
function in the pipeline and the theorems below restrict to stripped
input.) -/
def should_merge_with_previous (term : String) : Bool :=
  if term = "" then false
  else
    let fw := String.mk ((pyWords (lowerChars term.data)).headD [])
    continuationWords.contains fw ||
      (match term.data with
       | c :: _ => c.isLower
       | [] => false)

/-- WAGovGlossaryReader.process_definition_colons: split the definition
at period-space boundaries; every sentence holding a colon-space whose
before-colon part does not satisfy the merge heuristic yields a new
stripped pair. -/
def process_definition_colons (text : String) : List TDPair :=
  (splitAllSub ". ".data text.data).filterMap (fun sentence =>
    match splitFirstSub ": ".data sentence with
    | some (before, after) =>
      if should_merge_with_previous (String.mk before) then none
      else some (String.mk (stripChars before), String.mk (stripChars after))
    | none => none)

/-- One iteration of the pair-processing loop in
WAGovGlossaryReader.process_pdf: merge into the previous pair when one
exists and the merge heuristic fires; otherwise replace the pair by the
pairs split out of its definition when there are any, and keep the pair
unchanged when there are none. -/
def process_step (acc : List TDPair) (td : TDPair) : List TDPair :=
  match acc.getLast? with
  | some prev =>
    if should_merge_with_previous td.1 then
      acc.dropLast ++ [(prev.1, prev.2 ++ " " ++ td.2)]
    else
      let add := process_definition_colons td.2
      if !add.isEmpty then acc ++ add else acc ++ [td]
  | none =>
    let add := process_definition_colons td.2
    if !add.isEmpty then acc ++ add else acc ++ [td]

/-- The pair-processing loop of WAGovGlossaryReader.process_pdf over the
extracted pairs, before duplicate removal. -/
def process_pairs (l : List TDPair) : List TDPair :=
  l.foldl process_step []

/-- The file body produced by WAGovGlossaryReader.save_to_file: the
colon-format records, with no special branch when nothing was
extracted. -/
def save_to_file (pairs : List TDPair) : String :=
  writeRecords pairs

end WAGovGlossaryReader

namespace DocAnalyzer

theorem dedupKeyedAux_eq_keepFirst (key : TDPair → String) :
    ∀ (l : List TDPair) (seen : List String),
      dedupKeyedAux key seen l =
        keepFirstOccurrences key (l.filter (fun td => !seen.contains (key td)))
  | [], seen => by simp [dedupKeyedAux, keepFirstOccurrences]
  | td :: rest, seen => by
    by_cases h : seen.contains (key td)
    · rw [dedupKeyedAux, if_pos h, List.filter_cons]
      simp only [h, Bool.not_true, if_neg, Bool.false_eq_true, not_false_iff, reduceIte]
      exact dedupKeyedAux_eq_keepFirst key rest seen
    · rw [dedupKeyedAux, if_neg h, List.filter_cons]
      simp only [h, Bool.not_false, if_pos, reduceIte]
      rw [keepFirstOccurrences, List.filter_filter]
      rw [dedupKeyedAux_eq_keepFirst key rest (key td :: seen)]
      have hf : List.filter (fun q => !(key td :: seen).contains (key q)) rest
          = List.filter (fun a => decide (key a ≠ key td) && !seen.contains (key a)) rest := by
        apply List.filter_congr
        intro q _
        simp [List.contains_cons, Bool.not_or, decide_not, eq_comm]
      rw [hf]
  termination_by l => l.length

/-- The seen set starts empty, so the loop realises exactly the
keep-the-first-occurrence specification. -/
theorem dedupKeyed_eq_keepFirst (key : TDPair → String) (l : List TDPair) :
    dedupKeyed key l = keepFirstOccurrences key l := by
  rw [dedupKeyed, dedupKeyedAux_eq_keepFirst]
  congr 1
  simp

end DocAnalyzer

open DocAnalyzer

set_option maxRecDepth 20000 in
/-- C1: on the canned two-entry input block, the colon-based segmenters of
SectionPDFReader and ThomasWillingGlossaryReader both return exactly the
two expected pairs, in order. -/
theorem c1_colon_segmenter_round_trip :
    SectionPDFReader.extract_terms_and_definitions
        "Amortization: The process of spreading out a loan into a series of fixed payments over time.\n\nYield Curve: A graphical representation of interest rates on bonds of different maturities." =
      [("Amortization", "The process of spreading out a loan into a series of fixed payments over time."),
       ("Yield Curve", "A graphical representation of interest rates on bonds of different maturities.")] ∧
    ThomasWillingGlossaryReader.extract_terms_and_definitions
        "Amortization: The process of spreading out a loan into a series of fixed payments over time.\n\nYield Curve: A graphical representation of interest rates on bonds of different maturities." =
      [("Amortization", "The process of spreading out a loan into a series of fixed payments over time."),
       ("Yield Curve", "A graphical representation of interest rates on bonds of different maturities.")] :=
  ⟨rfl, rfl⟩

/-- C2 counterexample: the duplicate-removal step of HyphenPDFReader
tests membership on the term as written, so the claimed case-insensitive
behaviour fails: after ROI, the later roi entry also survives, and two
output entries share the same lower-cased term. -/
theorem c2_counterexample_hyphen_dedup_case_sensitive :
    dedupCaseSensitive [("ROI", "return on investment measure."), ("roi", "a later duplicate entry.")] =
      [("ROI", "return on investment measure."), ("roi", "a later duplicate entry.")] ∧
    dedupCaseSensitive [("ROI", "return on investment measure."), ("roi", "a later duplicate entry.")] ≠
      [("ROI", "return on investment measure.")] ∧
    lowerStr "ROI" = lowerStr "roi" :=
  ⟨rfl, by decide, rfl⟩

/-- C2 amended: the case-insensitive duplicate removal used by
SectionPDFReader, ThomasWillingGlossaryReader, WAGovGlossaryReader and
ColumnGlossaryReader keeps exactly the first occurrence of each
lower-cased term with its original definition, in first-seen order, and
in particular of ROI followed by roi only the first survives; the
HyphenPDFReader step keeps the first occurrence of each term under
case-sensitive comparison instead. -/
theorem c2_amended_dedup_keeps_first_occurrence :
    (∀ l : List TDPair,
      dedupCaseInsensitive l = keepFirstOccurrences (fun td => lowerStr td.1) l) ∧
    (∀ l : List TDPair,
      dedupCaseSensitive l = keepFirstOccurrences (fun td => td.1) l) ∧
    dedupCaseInsensitive [("ROI", "return on investment measure."), ("roi", "a later duplicate entry.")] =
      [("ROI", "return on investment measure.")] :=
  ⟨fun l => dedupKeyed_eq_keepFirst _ l, fun l => dedupKeyed_eq_keepFirst _ l, rfl⟩

/-- C4 counterexample: with zero extracted pairs, the sink of
SectionPDFReader writes an empty file body rather than a warning line,
and LinePDFReader.process_file returns without rewriting the file at
all. -/
theorem c4_counterexample_zero_pairs_not_warned :
    SectionPDFReader.save_text_content [] = "" ∧
    SectionPDFReader.save_text_content [] ≠ warningLine ∧
    LinePDFReader.process_file_rewrite [] = none :=
  ⟨rfl, by decide, rfl⟩

/-- C4 amended: with zero extracted pairs, PDFReader and HyphenPDFReader
write the single warning line as the whole file body; SectionPDFReader
(likewise the other colon-format sinks) writes an empty body, and
LinePDFReader leaves the file untouched. -/
theorem c4_amended_zero_pairs_behavior :
    PDFReader.save_text_content [] = warningLine ∧
    HyphenPDFReader.save_text_content [] = warningLine ∧
    SectionPDFReader.save_text_content [] = "" ∧
    WAGovGlossaryReader.save_to_file [] = "" ∧
    ColumnGlossaryReader.save_to_file [] = "" ∧
    LinePDFReader.process_file_rewrite [] = none :=
  ⟨rfl, rfl, rfl, rfl, rfl, rfl⟩

set_option maxRecDepth 20000 in
/-- C8: the embedded segmenters are total functions into pair lists, and
both on the empty string and on a text in which no layout pattern
matches they return the empty list rather than failing. -/
theorem c8_segmenters_total_empty_input :
    SectionPDFReader.extract_terms_and_definitions "" = [] ∧
    ThomasWillingGlossaryReader.extract_terms_and_definitions "" = [] ∧
    HyphenPDFReader.extract_terms_and_definitions "" = [] ∧
    PDFReader.extract_terms_and_definitions "" = [] ∧
    ColumnGlossaryReader.extract_term_and_definition "" = [] ∧
    SectionPDFReader.extract_terms_and_definitions "just plain lowercase words here" = [] ∧
    ThomasWillingGlossaryReader.extract_terms_and_definitions "just plain lowercase words here" = [] ∧
    HyphenPDFReader.extract_terms_and_definitions "just plain lowercase words here" = [] ∧
    PDFReader.extract_terms_and_definitions "just plain lowercase words here" = [] ∧
    ColumnGlossaryReader.extract_term_and_definition "just plain lowercase words here" = [] :=
  ⟨rfl, rfl, rfl, rfl, rfl, rfl, rfl, rfl, rfl, rfl⟩

/-- C3 counterexample: the base PDFReader variant only demands that the
term and the definition be nonempty, so on this input it emits the pair
(Asset, This.) whose definition has length 5, violating the claimed
bound of more than 5 for every reader variant. -/
theorem c3_counterexample_pdfreader_short_definition :
    PDFReader.extract_terms_and_definitions "Asset\nThis.\nBond" = [("Asset", "This.")] ∧
    ¬ 5 < ("This." : String).length :=
  ⟨rfl, by decide⟩

theorem section_mem_extract_bounds (text : String) (p : TDPair)
    (h : p ∈ SectionPDFReader.extract_terms_and_definitions text) :
    1 < p.1.length ∧ 5 < p.2.length := by
  unfold SectionPDFReader.extract_terms_and_definitions at h
  split at h
  · simp at h
  · obtain ⟨a, _, ha⟩ := List.mem_filterMap.mp h
    unfold SectionPDFReader.cleanPair at ha
    split at ha
    · exact absurd ha (by simp)
    · dsimp only at ha
      split at ha
      · rename_i hguard
        simp only [Bool.and_eq_true, decide_eq_true_eq] at hguard
        cases ha
        exact hguard
      · exact absurd ha (by simp)

theorem thomas_mem_extract_bounds (text : String) (p : TDPair)
    (h : p ∈ ThomasWillingGlossaryReader.extract_terms_and_definitions text) :
    1 < p.1.length ∧ 5 < p.2.length := by
  unfold ThomasWillingGlossaryReader.extract_terms_and_definitions at h
  split at h
  · simp at h
  · obtain ⟨a, _, ha⟩ := List.mem_filterMap.mp h
    unfold ThomasWillingGlossaryReader.cleanPair at ha
    dsimp only at ha
    split at ha
    · rename_i hguard
      simp only [Bool.and_eq_true, decide_eq_true_eq] at hguard
      cases ha
      exact hguard
    · exact absurd ha (by simp)

theorem hyphen_mem_extract_bounds (text : String) (p : TDPair)
    (h : p ∈ HyphenPDFReader.extract_terms_and_definitions text) :
    2 < p.1.length ∧ 5 < p.2.length ∧
      (DocAnalyzer.lowerChars p.1.data).isPrefixOf (DocAnalyzer.lowerChars p.2.data) = false := by
  unfold HyphenPDFReader.extract_terms_and_definitions at h
  split at h
  · simp at h
  · obtain ⟨a, _, ha⟩ := List.mem_filterMap.mp h
    unfold HyphenPDFReader.cleanPair at ha
    dsimp only at ha
    split at ha
    · rename_i hguard
      simp only [Bool.and_eq_true, decide_eq_true_eq, Bool.not_eq_true'] at hguard
      cases ha
      exact ⟨hguard.1.1, hguard.1.2, hguard.2⟩
    · exact absurd ha (by simp)

set_option maxRecDepth 20000 in
/-- C3 amended: the length invariants hold for the Section, ThomasWilling
and Hyphen variants (the last even demands a term longer than 2), and the
line A: short yields no output pair in any variant; but the
ColumnGlossaryReader and base PDFReader variants do not enforce the
bounds, as the counterexample shows. -/
theorem c3_amended_length_bounds :
    (∀ (text : String) (p : TDPair),
      p ∈ SectionPDFReader.extract_terms_and_definitions text →
        1 < p.1.length ∧ 5 < p.2.length) ∧
    (∀ (text : String) (p : TDPair),
      p ∈ ThomasWillingGlossaryReader.extract_terms_and_definitions text →
        1 < p.1.length ∧ 5 < p.2.length) ∧
    (∀ (text : String) (p : TDPair),
      p ∈ HyphenPDFReader.extract_terms_and_definitions text →
        2 < p.1.length ∧ 5 < p.2.length) ∧
    SectionPDFReader.extract_terms_and_definitions "A: short" = [] ∧
    ThomasWillingGlossaryReader.extract_terms_and_definitions "A: short" = [] ∧
    HyphenPDFReader.extract_terms_and_definitions "A: short" = [] ∧
    PDFReader.extract_terms_and_definitions "A: short" = [] ∧
    ColumnGlossaryReader.extract_term_and_definition "A: short" = [] :=
  ⟨section_mem_extract_bounds, thomas_mem_extract_bounds,
   fun text p h => ⟨(hyphen_mem_extract_bounds text p h).1, (hyphen_mem_extract_bounds text p h).2.1⟩,
   rfl, rfl, rfl, rfl, rfl⟩

set_option maxRecDepth 20000 in
/-- C3 amended witness: the bound instantiated at a concrete extraction. -/
theorem c3_amended_length_bounds_witness :
    1 < ("Bond" : String).length ∧ 5 < ("A debt security." : String).length :=
  c3_amended_length_bounds.1 "Bond: A debt security." ("Bond", "A debt security.") (by decide)

/-- C10: every pair emitted by HyphenPDFReader.extract_terms_and_definitions
has a term longer than 2 and a definition longer than 5, and the
definition never repeats the term as a case-insensitive leading
fragment. -/
theorem c10_hyphen_output_invariant (text : String) (p : TDPair)
    (h : p ∈ HyphenPDFReader.extract_terms_and_definitions text) :
    2 < p.1.length ∧ 5 < p.2.length ∧
      (DocAnalyzer.lowerChars p.1.data).isPrefixOf (DocAnalyzer.lowerChars p.2.data) = false :=
  hyphen_mem_extract_bounds text p h

set_option maxRecDepth 20000 in
/-- C10 witness: the invariant instantiated at a concrete extraction. -/
theorem c10_hyphen_output_invariant_witness :
    2 < ("Loan" : String).length ∧ 5 < ("money borrowed from a bank." : String).length ∧
      (DocAnalyzer.lowerChars ("Loan" : String).data).isPrefixOf
        (DocAnalyzer.lowerChars ("money borrowed from a bank." : String).data) = false :=
  c10_hyphen_output_invariant "Loan – money borrowed from a bank." ("Loan", "money borrowed from a bank.")
    (by decide)

/-- C5 counterexample: ColumnGlossaryReader does not implement the
claimed rule: with the term Bond pending, the next block starts with
However — whose lower-cased form is in the fixed continuation-word set,
as the lower-case set of WAGovGlossaryReader records — yet the block is
opened as a new term instead of being merged, because the column variant
tests exact membership in its own capitalised set, which lacks However,
and has no lowercase-first-character rule. -/
theorem c5_counterexample_column_not_claimed_rule :
    ColumnGlossaryReader.extract_term_and_definition
        "Bond A debt security. However traders disagree." =
      [("Bond", "A debt security."), ("However", "traders disagree.")] ∧
    WAGovGlossaryReader.continuationWords.contains "however" = true ∧
    ColumnGlossaryReader.CONTINUATION_WORDS.contains "However" = false :=
  ⟨rfl, rfl, rfl⟩

/-- C5 amended: in WAGovGlossaryReader the claimed rule holds exactly:
a pair is merged iff a previous pair is pending and either the first
word of the lower-cased line is in the fixed continuation-word set or
the first character of the line is lowercase; with no pending pair
nothing is merged.  (ColumnGlossaryReader instead tests the first word,
case-sensitively, against its own capitalised set and has no
lowercase-first-character rule — see the counterexample.) -/
theorem c5_amended_merge_rule (processed : List TDPair) (line : String)
    (h : pyStrip line = line) :
    (processed ≠ [] ∧ WAGovGlossaryReader.should_merge_with_previous line = true) ↔
      (processed ≠ [] ∧
        (WAGovGlossaryReader.continuationWords.contains
            (String.mk ((pyWords (lowerChars line.data)).headD [])) = true ∨
          ∃ c rest, line.data = c :: rest ∧ c.isLower = true)) := by
  apply and_congr_right
  intro _
  unfold WAGovGlossaryReader.should_merge_with_previous
  by_cases hl : line = ""
  · subst hl
    rw [if_pos rfl]
    constructor
    · intro hx
      exact absurd hx (by decide)
    · intro hx
      rcases hx with hx | ⟨c, rest, hcr, _⟩
      · exact absurd hx (by decide)
      · exact List.noConfusion hcr
  · rw [if_neg hl]
    dsimp only
    rw [Bool.or_eq_true]
    apply or_congr Iff.rfl
    constructor
    · intro hx
      cases hd : line.data with
      | nil =>
        rw [hd] at hx
        exact absurd hx (by decide)
      | cons c rest =>
        rw [hd] at hx
        exact ⟨c, rest, rfl, hx⟩
    · intro hx
      obtain ⟨c, rest, hcr, hlow⟩ := hx
      rw [hcr]
      exact hlow

/-- C5 amended witness: the rule instantiated at a pending pair and a
concrete lowercase-starting line. -/
theorem c5_amended_merge_rule_witness :
    ([(("Alpha", "beta gamma.") : TDPair)] ≠ [] ∧
        WAGovGlossaryReader.should_merge_with_previous "it pays interest" = true) ↔
      ([(("Alpha", "beta gamma.") : TDPair)] ≠ [] ∧
        (WAGovGlossaryReader.continuationWords.contains
            (String.mk ((pyWords (lowerChars ("it pays interest" : String).data)).headD [])) = true ∨
          ∃ c rest, ("it pays interest" : String).data = c :: rest ∧ c.isLower = true)) :=
  c5_amended_merge_rule [("Alpha", "beta gamma.")] "it pays interest" rfl

/-- C9 counterexample: the second pair's definition holds the sentence
Note: it went up., whose before-colon part fails the merge heuristic, so
by the claim the pair should be replaced by (Note, it went up.); but its
term The Economy itself satisfies the merge heuristic, so the whole pair
is merged into the previous definition and the split pair never
appears. -/
theorem c9_counterexample_merged_pair_not_split :
    WAGovGlossaryReader.process_definition_colons "rises. Note: it went up." =
      [("Note", "it went up.")] ∧
    WAGovGlossaryReader.process_pairs
        [("Alpha", "something plain."), ("The Economy", "rises. Note: it went up.")] =
      [("Alpha", "something plain. rises. Note: it went up.")] ∧
    (("Note", "it went up.") : TDPair) ∉
      WAGovGlossaryReader.process_pairs
        [("Alpha", "something plain."), ("The Economy", "rises. Note: it went up.")] :=
  ⟨rfl, rfl, by decide⟩

/-- C9 amended: for a pair that is not absorbed by the merge heuristic
(no previous pair, or a term failing the heuristic), whenever its
definition splits into at least one colon pair, the processing step of
WAGovGlossaryReader.process_pdf discards the pair and appends exactly
the split pairs in its place. -/
theorem c9_amended_colon_split_step (acc : List TDPair) (t d : String)
    (hm : acc = [] ∨ WAGovGlossaryReader.should_merge_with_previous t = false)
    (hc : WAGovGlossaryReader.process_definition_colons d ≠ []) :
    WAGovGlossaryReader.process_step acc (t, d) =
      acc ++ WAGovGlossaryReader.process_definition_colons d := by
  unfold WAGovGlossaryReader.process_step
  cases acc with
  | nil =>
    rw [List.getLast?_nil]
    dsimp only
    rw [if_pos (by simpa using hc)]
  | cons a as =>
    obtain ⟨ys, y, hy⟩ := ((a :: as).eq_nil_or_concat).resolve_left (by simp)
    rw [hy, List.concat_eq_append, List.getLast?_concat]
    dsimp only
    have hm2 : WAGovGlossaryReader.should_merge_with_previous t = false := by
      rcases hm with hm | hm
      · exact absurd hm (List.cons_ne_nil a as)
      · exact hm
    rw [if_neg (by simp [hm2])]
    rw [if_pos (by simpa using hc)]

set_option maxRecDepth 20000 in
/-- C9 amended witness: the step instantiated at a concrete pending list
and pair. -/
theorem c9_amended_colon_split_step_witness :
    WAGovGlossaryReader.process_step [("Alpha", "something plain.")]
        ("Deficit", "spending beyond income. Note: a related entry.") =
      [("Alpha", "something plain.")] ++
        WAGovGlossaryReader.process_definition_colons
          "spending beyond income. Note: a related entry." :=
  c9_amended_colon_split_step [("Alpha", "something plain.")] "Deficit"
    "spending beyond income. Note: a related entry." (Or.inr (by decide)) (by decide)

theorem column_mem_flushPair (cur : Option (List Char × List (List Char))) (p : TDPair)
    (h : p ∈ ColumnGlossaryReader.flushPair cur) :
    ColumnGlossaryReader.endsWithDot p.2.data = true := by
  unfold ColumnGlossaryReader.flushPair at h
  cases cur with
  | none => simp at h
  | some td =>
    obtain ⟨t, parts⟩ := td
    dsimp only at h
    by_cases hcond : (!t.isEmpty && !parts.isEmpty) = true
    · rw [if_pos hcond] at h
      by_cases hdot : ColumnGlossaryReader.endsWithDot (joinSp parts) = true
      · rw [if_pos hdot] at h
        rcases List.mem_singleton.mp h with rfl
        simpa using hdot
      · rw [if_neg hdot] at h
        simp at h
    · rw [if_neg hcond] at h
      simp at h

theorem column_scanBlocks_endsDot :
    ∀ (bs : List (List Char)) (cur : Option (List Char × List (List Char))) (p : TDPair),
      p ∈ ColumnGlossaryReader.scanBlocks bs cur →
      ColumnGlossaryReader.endsWithDot p.2.data = true
  | [], cur, p, h => column_mem_flushPair cur p h
  | b :: bs, cur, p, h => by
    rw [ColumnGlossaryReader.scanBlocks] at h
    dsimp only at h
    repeat' split at h
    all_goals
      first
      | exact column_scanBlocks_endsDot bs _ p h
      | (rcases List.mem_append.mp h with h2 | h2
         <;> first
          | exact column_mem_flushPair _ p h2
          | exact column_scanBlocks_endsDot bs _ p h2)

/-- C6: every pair emitted by ColumnGlossaryReader has an accumulated
definition that, once stripped, ends with a period; a pending pair whose
definition lacks the terminal period is dropped and contributes no
output pair. -/
theorem c6_column_definition_ends_with_period (text : String) (p : TDPair)
    (h : p ∈ ColumnGlossaryReader.extract_term_and_definition text) :
    (DocAnalyzer.pyStrip p.2).data.getLast? = some '.' := by
  have hdot := column_scanBlocks_endsDot (ColumnGlossaryReader.blockSplit text.data) none p h
  unfold ColumnGlossaryReader.endsWithDot at hdot
  simpa [DocAnalyzer.pyStrip] using hdot

set_option maxRecDepth 20000 in
/-- C6 witness: the invariant instantiated at a concrete extraction;
the same input also shows a trailing fragment without a period being
dropped. -/
theorem c6_column_definition_ends_with_period_witness :
    (DocAnalyzer.pyStrip ("A debt security." : String)).data.getLast? = some '.' :=
  c6_column_definition_ends_with_period
    "Bond A debt security. Market trading happens without an ending period here"
    ("Bond", "A debt security.") (by decide)

theorem head_dropWhile_not (p : Char → Bool) :
    ∀ (l : List Char) (c : Char), (l.dropWhile p).head? = some c → p c = false
  | [], c, h => by simp [List.dropWhile] at h
  | a :: as, c, h => by
    rw [List.dropWhile_cons] at h
    split at h
    · exact head_dropWhile_not p as c h
    · rename_i hpa
      simp only [List.head?_cons, Option.some.injEq] at h
      subst h
      simpa using hpa

theorem dropWhile_eq_self_of_head (p : Char → Bool) (l : List Char)
    (h : ∀ c, l.head? = some c → p c = false) : l.dropWhile p = l := by
  cases l with
  | nil => rfl
  | cons a as =>
    rw [List.dropWhile_cons, if_neg]
    simp [h a rfl]

theorem getLast?_dropWhile_of_ne_nil (p : Char → Bool) :
    ∀ (l : List Char), l.dropWhile p ≠ [] → (l.dropWhile p).getLast? = l.getLast?
  | [], h => by simp [List.dropWhile] at h
  | a :: as, h => by
    by_cases hpa : p a = true
    · rw [List.dropWhile_cons, if_pos hpa] at h ⊢
      rw [getLast?_dropWhile_of_ne_nil p as h]
      have hne : as ≠ [] := by
        intro he
        rw [he] at h
        simp [List.dropWhile] at h
      cases as with
      | nil => exact absurd rfl hne
      | cons b bs => simp [List.getLast?_cons_cons]
    · rw [List.dropWhile_cons, if_neg hpa]

theorem stripChars_idem (l : List Char) : DocAnalyzer.stripChars (DocAnalyzer.stripChars l) = DocAnalyzer.stripChars l := by
  unfold DocAnalyzer.stripChars
  have h1 : ((((l.dropWhile pySpace).reverse.dropWhile pySpace).reverse : List Char).dropWhile pySpace)
      = ((l.dropWhile pySpace).reverse.dropWhile pySpace).reverse := by
    apply dropWhile_eq_self_of_head
    intro c hc
    by_cases hsnil : (l.dropWhile pySpace).reverse.dropWhile pySpace = []
    · rw [hsnil] at hc
      simp at hc
    · rw [List.head?_reverse] at hc
      rw [getLast?_dropWhile_of_ne_nil pySpace _ hsnil] at hc
      rw [List.getLast?_reverse] at hc
      exact head_dropWhile_not pySpace l c hc
  rw [h1, List.reverse_reverse]
  have h2 : ((l.dropWhile pySpace).reverse.dropWhile pySpace).dropWhile pySpace
      = (l.dropWhile pySpace).reverse.dropWhile pySpace := by
    apply dropWhile_eq_self_of_head
    intro c hc
    exact head_dropWhile_not pySpace _ c hc
  rw [h2]

theorem splitFirstChar_not_mem (sep : Char) :
    ∀ (l a b : List Char), DocAnalyzer.splitFirstChar sep l = some (a, b) → sep ∉ a
  | [], a, b, h => by simp [DocAnalyzer.splitFirstChar] at h
  | c :: cs, a, b, h => by
    rw [DocAnalyzer.splitFirstChar] at h
    split at h
    · cases h
      simp
    · rename_i hc
      cases hm : DocAnalyzer.splitFirstChar sep cs with
      | some ab =>
        obtain ⟨a1, b1⟩ := ab
        rw [hm] at h
        simp only [Option.some.injEq, Prod.mk.injEq] at h
        obtain ⟨h4, h5⟩ := h
        subst h4
        intro hmem
        rcases List.mem_cons.mp hmem with he | hmem2
        · exact hc he.symm
        · exact splitFirstChar_not_mem sep cs a1 b1 hm hmem2
      | none =>
        rw [hm] at h
        cases h

theorem splitFirstChar_append (sep : Char) :
    ∀ (a b : List Char), sep ∉ a →
      DocAnalyzer.splitFirstChar sep (a ++ sep :: b) = some (a, b)
  | [], b, _ => by simp [DocAnalyzer.splitFirstChar]
  | c :: a, b, h => by
    have hc : ¬(c = sep) := by
      intro he
      exact h (he ▸ List.mem_cons_self c a)
    rw [List.cons_append, DocAnalyzer.splitFirstChar, if_neg hc,
      splitFirstChar_append sep a b (fun hm => h (List.mem_cons_of_mem c hm))]

theorem mem_collapseAux (c : Char) :
    ∀ (b : Bool) (l : List Char), c ∈ DocAnalyzer.collapseAux b l → c = ' ' ∨ c ∈ l
  | b, [], h => by simp [DocAnalyzer.collapseAux] at h
  | b, a :: as, h => by
    rw [DocAnalyzer.collapseAux] at h
    split at h
    · split at h
      · rcases mem_collapseAux c true as h with h2 | h2
        · exact Or.inl h2
        · exact Or.inr (List.mem_cons_of_mem a h2)
      · rcases List.mem_cons.mp h with he | h2
        · exact Or.inl he
        · rcases mem_collapseAux c true as h2 with h3 | h3
          · exact Or.inl h3
          · exact Or.inr (List.mem_cons_of_mem a h3)
    · rcases List.mem_cons.mp h with he | h2
      · exact Or.inr (he ▸ List.mem_cons_self a as)
      · rcases mem_collapseAux c false as h2 with h3 | h3
        · exact Or.inl h3
        · exact Or.inr (List.mem_cons_of_mem a h3)

theorem mem_stripChars {c : Char} {l : List Char} (h : c ∈ DocAnalyzer.stripChars l) : c ∈ l := by
  unfold DocAnalyzer.stripChars at h
  rw [List.mem_reverse] at h
  have h2 := (List.dropWhile_sublist _).mem h
  rw [List.mem_reverse] at h2
  exact (List.dropWhile_sublist _).mem h2

theorem stripChars_cons_space (l : List Char) :
    DocAnalyzer.stripChars (' ' :: l) = DocAnalyzer.stripChars l := by
  unfold DocAnalyzer.stripChars
  rw [List.dropWhile_cons, if_pos (by decide)]

theorem section_scan_colon_free :
    ∀ (lines : List (List Char)) (cur : Option (List Char × List (List Char))),
      (∀ t defs, cur = some (t, defs) → ':' ∉ t) →
      ∀ q ∈ SectionPDFReader.scanLines lines cur, ':' ∉ q.1
  | [], cur, hinv, q, hq => by
    unfold SectionPDFReader.scanLines at hq
    cases cur with
    | none => simp at hq
    | some ctdefs =>
      obtain ⟨ct, defs⟩ := ctdefs
      dsimp only at hq
      by_cases h3 : (!ct.isEmpty && !defs.isEmpty) = true
      · rw [if_pos h3] at hq
        rcases List.mem_singleton.mp hq with rfl
        exact hinv ct defs rfl
      · rw [if_neg h3] at hq
        simp at hq
  | rawLine :: rest, cur, hinv, q, hq => by
    rw [SectionPDFReader.scanLines.eq_def] at hq
    dsimp only at hq
    by_cases h1 : (DocAnalyzer.stripChars rawLine).isEmpty = true
    · rw [if_pos h1] at hq
      exact section_scan_colon_free rest cur hinv q hq
    · rw [if_neg h1] at hq
      by_cases h2 : ((DocAnalyzer.stripChars rawLine).length = 1 &&
          (DocAnalyzer.stripChars rawLine).all Char.isUpper) = true
      · rw [if_pos h2] at hq
        exact section_scan_colon_free rest cur hinv q hq
      · rw [if_neg h2] at hq
        cases hsp : DocAnalyzer.splitFirstChar ':' (DocAnalyzer.stripChars rawLine) with
        | some td =>
          obtain ⟨t, d⟩ := td
          rw [hsp] at hq
          dsimp only at hq
          rcases List.mem_append.mp hq with hq2 | hq2
          · cases cur with
            | none => simp at hq2
            | some ctdefs =>
              obtain ⟨ct, defs⟩ := ctdefs
              dsimp only at hq2
              by_cases h3 : (!ct.isEmpty && !defs.isEmpty) = true
              · rw [if_pos h3] at hq2
                rcases List.mem_singleton.mp hq2 with rfl
                exact hinv ct defs rfl
              · rw [if_neg h3] at hq2
                simp at hq2
          · apply section_scan_colon_free rest _ _ q hq2
            intro t2 defs2 he
            injection he with he2
            obtain ⟨he3, _⟩ := Prod.mk.injEq .. |>.mp he2
            subst he3
            intro hmem
            exact splitFirstChar_not_mem ':' _ t d hsp (mem_stripChars hmem)
        | none =>
          rw [hsp] at hq
          cases cur with
          | none => exact section_scan_colon_free rest none hinv q hq
          | some ctdefs =>
            obtain ⟨ct, defs⟩ := ctdefs
            apply section_scan_colon_free rest _ _ q hq
            intro t2 defs2 he
            injection he with he2
            obtain ⟨he3, _⟩ := Prod.mk.injEq .. |>.mp he2
            subst he3
            exact hinv ct defs rfl

theorem section_extract_term_shape (text : String) (p : TDPair)
    (h : p ∈ SectionPDFReader.extract_terms_and_definitions text) :
    ':' ∉ p.1.data ∧ DocAnalyzer.stripChars p.1.data = p.1.data ∧
      DocAnalyzer.stripChars p.2.data = p.2.data := by
  unfold SectionPDFReader.extract_terms_and_definitions at h
  split at h
  · simp at h
  · obtain ⟨a, hamem, ha⟩ := List.mem_filterMap.mp h
    have hcf : ':' ∉ a.1 :=
      section_scan_colon_free _ none (by intro t defs he; cases he) a hamem
    unfold SectionPDFReader.cleanPair at ha
    split at ha
    · exact absurd ha (by simp)
    · dsimp only at ha
      split at ha
      · cases ha
        refine ⟨?_, stripChars_idem _, stripChars_idem _⟩
        intro hmem
        rcases mem_collapseAux ':' false a.1 (mem_stripChars hmem) with he | he
        · exact absurd he (by decide)
        · exact hcf he
      · exact absurd ha (by simp)

theorem parse_format_roundtrip (t d : String)
    (ht : ':' ∉ t.data) (hts : DocAnalyzer.stripChars t.data = t.data)
    (hds : DocAnalyzer.stripChars d.data = d.data) :
    DocAnalyzer.parseRecordLine (t ++ ": " ++ d) = some (t, d) := by
  unfold DocAnalyzer.parseRecordLine
  have hdata : (t ++ ": " ++ d).data = t.data ++ ':' :: ' ' :: d.data := by
    simp [String.data_append]
  rw [hdata, splitFirstChar_append ':' t.data (' ' :: d.data) ht]
  dsimp only
  rw [stripChars_cons_space, hts, hds]

/-- C7 counterexample: ColumnGlossaryReader can emit a term that itself
contains a colon — on this input the emitted term is Price: — so the
record written by the persistence sink does not round-trip: splitting
the written line at its first colon yields the term Price and a
definition beginning with a colon, not the original pair. -/
theorem c7_counterexample_column_term_with_colon :
    ColumnGlossaryReader.extract_term_and_definition "Price: the cost of something." =
      [("Price:", "the cost of something.")] ∧
    ':' ∈ ("Price:" : String).data ∧
    DocAnalyzer.parseRecordLine ("Price:" ++ ": " ++ "the cost of something.") =
      some ("Price", ": the cost of something.") ∧
    (("Price", ": the cost of something.") : TDPair) ≠ ("Price:", "the cost of something.") :=
  ⟨rfl, by decide, rfl, by decide⟩

/-- C7 amended: for every pair extracted by the colon-splitting
SectionPDFReader the term contains no colon, and the written record
term: definition, split back at its first colon with both sides
stripped, recovers exactly the original pair; ColumnGlossaryReader can
break this, as the counterexample shows. -/
theorem c7_amended_section_write_roundtrip (text : String) (p : TDPair)
    (h : p ∈ SectionPDFReader.extract_terms_and_definitions text) :
    ':' ∉ p.1.data ∧ DocAnalyzer.parseRecordLine (p.1 ++ ": " ++ p.2) = some p := by
  obtain ⟨hcf, hts, hds⟩ := section_extract_term_shape text p h
  exact ⟨hcf, parse_format_roundtrip p.1 p.2 hcf hts hds⟩

set_option maxRecDepth 20000 in
/-- C7 amended witness: the round trip instantiated at a concrete
extraction. -/
theorem c7_amended_section_write_roundtrip_witness :
    ':' ∉ ("Bond" : String).data ∧
      DocAnalyzer.parseRecordLine (("Bond" : String) ++ ": " ++ ("A debt security." : String)) =
        some (("Bond", "A debt security.") : TDPair) :=
  c7_amended_section_write_roundtrip "Bond: A debt security." ("Bond", "A debt security.")
    (by decide)
